import Mathlib

/-!
Shallow embedding of the diffraction-vector utilities in
`src/pyxem/utils/vector_utils.py`, together with a model of the
unique-vector clustering exercised by
`src/pyxem/tests/signals/test_diffraction_vectors.py`.

Conventions of the embedding:

* A ragged per-position vector list is a `List Vec2` of exact rationals
  (`Vec2 = ℚ × ℚ`); numpy float arrays are modelled by exact arithmetic.
* numpy's in-place mutation is modelled by state passing: a function that
  mutates its argument returns a pair `(final state of the argument,
  return value)`.
* Comparisons of a Euclidean norm (a real square root of a rational)
  against a rational bound are encoded by the decidable predicates
  `sqrtLtB` / `sqrtGtB` on the squared quantity; the lemmas
  `sqrtLtB_iff` / `sqrtGtB_iff` / `sqrtNeZero_iff` prove the encoding
  agrees with the real-number comparison, so the rational code is a
  faithful image of the floating-point comparisons in exact arithmetic.
* A float `NaN` produced by `np.sqrt` of a negative number is modelled
  as `Option.none`.
-/

attribute [local semireducible] Rat.ofScientific Rat.mul Rat.inv Rat.add Rat.sub

abbrev Vec2 := ℚ × ℚ

/-- Squared Euclidean norm of a 2D vector; `np.linalg.norm(v) = √(normSq v)`. -/
def normSq (v : Vec2) : ℚ := v.1 * v.1 + v.2 * v.2

/-- Squared Euclidean distance between two 2D vectors. -/
def distSq (a b : Vec2) : ℚ := (a.1 - b.1) * (a.1 - b.1) + (a.2 - b.2) * (a.2 - b.2)

/-- Decidable encoding of `Real.sqrt s < t` for `0 ≤ s`. -/
def sqrtLtB (s t : ℚ) : Bool := decide (0 < t ∧ s < t * t)

/-- Decidable encoding of `t < Real.sqrt s` for `0 ≤ s`. -/
def sqrtGtB (s t : ℚ) : Bool := decide (t < 0 ∨ t * t < s)


/-- Embedding of `filter_vectors_ragged(z, min_magnitude, max_magnitude)`
(`vector_utils.py` lines 100-126).  The source builds a fresh local array
`norms` of the row norms, zeroes the entries outside `[min, max]`
(`norms[norms < min_magnitude] = 0`, `norms[norms > max_magnitude] = 0`) and
returns `z[np.where(norms)]`.  The input `z` is never written to, so the
returned pair is `(final state of z, returned array)` with the state equal to
the input.  The `norms` array is represented by the squared norms, with the
comparisons against the bounds encoded by `sqrtLtB` / `sqrtGtB`, and the
truthiness test `np.where(norms)` by `≠ 0` (valid since `√n ≠ 0 ↔ n ≠ 0`). -/
def filter_vectors_ragged (z : List Vec2) (min_magnitude max_magnitude : ℚ) :
    List Vec2 × List Vec2 :=
  let norms0 := z.map (fun v => normSq v)
  let norms1 := norms0.map (fun n => if sqrtLtB n min_magnitude then 0 else n)
  let norms2 := norms1.map (fun n => if sqrtGtB n max_magnitude then 0 else n)
  (z, (z.zip norms2).filterMap (fun p => if p.2 ≠ 0 then some p.1 else none))

/-- Embedding of `filter_vectors_edge_ragged(z, x_threshold, y_threshold)`
(`vector_utils.py` lines 129-150).  The source mutates `z` in place:
`z[np.absolute(z.T[0]) > x_threshold] = 0` and
`z[np.absolute(z.T[1]) > y_threshold] = 0` zero out whole rows of the
argument, and the function then returns `z[np.where(z.T[0])]`, the rows whose
(post-zeroing) x-coordinate is nonzero.  The returned pair is
`(final state of z, returned array)`. -/
def filter_vectors_edge_ragged (z : List Vec2) (x_threshold y_threshold : ℚ) :
    List Vec2 × List Vec2 :=
  let z1 := z.map (fun v => if |v.1| > x_threshold then ((0 : ℚ), (0 : ℚ)) else v)
  let z2 := z1.map (fun v => if |v.2| > y_threshold then ((0 : ℚ), (0 : ℚ)) else v)
  (z2, z2.filter (fun v => v.1 ≠ 0))

/-- Total list indexing with an explicit default, used to model numpy fancy
indexing `arr[i]` at indices produced by `np.argmin` (always in bounds in the
source). -/
def nth {α : Type} (l : List α) (i : ℕ) (d : α) : α :=
  match l, i with
  | [], _ => d
  | x :: _, 0 => x
  | _ :: xs, n + 1 => nth xs n d


/-- Index of the first minimum of a list, with the running best value, its
index and the index of the head of the remaining list as accumulators.
Mirrors `np.argmin`: a strictly smaller value is required to displace the
current best, so the first occurrence of the minimum wins. -/
def argminGo : List ℚ → ℚ → ℕ → ℕ → ℕ
  | [], _, bestIdx, _ => bestIdx
  | x :: rest, best, bestIdx, cur =>
    if x < best then argminGo rest x cur (cur + 1)
    else argminGo rest best bestIdx (cur + 1)

/-- Embedding of `np.argmin` over a 1D array (first index of the minimum). -/
def argminIdx : List ℚ → ℕ
  | [] => 0
  | x :: xs => argminGo xs x 0 1


/-- Embedding of `filter_vectors_near_basis(vectors, basis, distance)`
(`vector_utils.py` lines 319-352).  If `vectors` is empty the source returns
an all-NaN array shaped like `basis` (modelled as `none` rows).  Otherwise it
computes the `cdist` Euclidean distance matrix, takes for each basis column
the `argmin` over the vectors axis (`closest_index`), reads the matching
minimal distance (`min_distance = distance_mat[closest_index, arange]`) and
gathers `closest_vectors = vectors[closest_index]`; when a gating `distance`
is given, rows with `min_distance > distance` are overwritten with NaN.
Distances are represented by their squares (`distSq`); `argmin` over the
squares equals `argmin` over the Euclidean distances because `Real.sqrt` is
strictly monotone on the nonnegative squares, and the gate
`min_distance > distance` is encoded by `sqrtGtB`. -/
def filter_vectors_near_basis (vectors basis : List Vec2) (distance : Option ℚ) :
    List (Option Vec2) :=
  if vectors.length = 0 then
    basis.map (fun _ => none)
  else
    basis.map (fun b =>
      let ds := vectors.map (fun v => distSq v b)
      let i := argminIdx ds
      let closest := nth vectors i ((0 : ℚ), (0 : ℚ))
      match distance with
      | none => some closest
      | some d => if sqrtGtB (nth ds i 0) d then none else some closest)

/-- Embedding of `detector_to_fourier(k_xy, wavelength, camera_length)`
(`vector_utils.py` lines 25-61).  The source computes
`k_z = np.sqrt(1 / wavelength**2 - np.sum(k_xy**2, axis=1)) - 1 / wavelength`
and horizontally stacks `k_xy` with `k_z`.  A negative square-root argument
yields a float NaN in `k_z`, modelled as `none`; otherwise the exact real
value is returned.  The `camera_length` argument is accepted but never used
by the computation (the guarded ragged-array branch at lines 48-50 of the
source is a no-op and is omitted).  `fourierRow` is the per-row image of the
vectorized computation; `detector_to_fourier` maps it over the rows. -/
noncomputable def fourierRow (v : Vec2) (wavelength : ℚ) : ℚ × ℚ × Option ℝ :=
  (v.1, v.2,
    if 1 / wavelength ^ 2 - normSq v < 0 then none
    else some (Real.sqrt ((1 / wavelength ^ 2 - normSq v : ℚ)) -
      1 / (wavelength : ℝ)))

/-- Embedding of `detector_to_fourier(k_xy, wavelength, camera_length)`:
see `fourierRow`. -/
noncomputable def detector_to_fourier (k_xy : List Vec2)
    (wavelength camera_length : ℚ) : List (ℚ × ℚ × Option ℝ) :=
  k_xy.map (fun v => fourierRow v wavelength)

/-- Strict lexicographic row order used by `np.unique(..., axis=0)`. -/
def lexLtB (a b : Vec2) : Bool :=
  decide (a.1 < b.1 ∨ (a.1 = b.1 ∧ a.2 < b.2))

/-- Non-strict lexicographic row order, the sort key of a coordinate-sorted
vector table. -/
def lexLeB (a b : Vec2) : Bool :=
  decide (a.1 < b.1 ∨ (a.1 = b.1 ∧ a.2 ≤ b.2))

/-- Whether a list of vectors is sorted by coordinate (lexicographically). -/
def lexSortedB : List Vec2 → Bool
  | [] => true
  | [_] => true
  | a :: b :: rest => lexLeB a b && lexSortedB (b :: rest)

/-- Insert a vector into a lexicographically sorted association list of
(row, multiplicity) pairs, bumping the multiplicity on an exact duplicate. -/
def insertCount (v : Vec2) : List (Vec2 × ℕ) → List (Vec2 × ℕ)
  | [] => [(v, 1)]
  | (w, c) :: rest =>
    if v = w then (w, c + 1) :: rest
    else if lexLtB v w then (v, 1) :: (w, c) :: rest
    else (w, c) :: insertCount v rest

/-- Modelled from the spec: `np.unique(peaks_all, axis=0)` with row counts —
the lexicographically sorted list of distinct rows of the flattened vector
set, each with its multiplicity.  (The unique-vector clustering
implementation itself is not under `src/`; only its test fixture is.) -/
def uniqueCounts (l : List Vec2) : List (Vec2 × ℕ) :=
  l.foldl (fun acc v => insertCount v acc) []

/-- All index pairs `i < j` of the current cluster list together with the
squared distance of their representatives, in row-major order (the scan
order of `np.argmin` over a distance matrix). -/
def pairsDist (cs : List (Vec2 × ℕ)) : List (ℕ × ℕ × ℚ) :=
  cs.enum.flatMap (fun p =>
    (cs.enum.drop (p.1 + 1)).map (fun q => (p.1, q.1, distSq p.2.1 q.2.1)))

/-- First pair attaining the minimal squared distance (accumulator form);
strict comparison keeps the earliest pair on ties, as `np.argmin` does. -/
def selectMinGo : List (ℕ × ℕ × ℚ) → (ℕ × ℕ × ℚ) → (ℕ × ℕ × ℚ)
  | [], best => best
  | x :: rest, best =>
    if x.2.2 < best.2.2 then selectMinGo rest x else selectMinGo rest best

/-- First pair of clusters at minimal distance, if any pair exists. -/
def selectMin : List (ℕ × ℕ × ℚ) → Option (ℕ × ℕ × ℚ)
  | [] => none
  | x :: xs => some (selectMinGo xs x)

/-- Merge clusters `i` and `j` (with `i < j`): the representative becomes the
multiplicity-weighted centroid, stored at position `i`; position `j` is
removed. -/
def mergeAt (cs : List (Vec2 × ℕ)) (i j : ℕ) : List (Vec2 × ℕ) :=
  let p := nth cs i (((0 : ℚ), (0 : ℚ)), 0)
  let q := nth cs j (((0 : ℚ), (0 : ℚ)), 0)
  let tot : ℚ := (p.2 : ℚ) + (q.2 : ℚ)
  let m : Vec2 := ((p.1.1 * (p.2 : ℚ) + q.1.1 * (q.2 : ℚ)) / tot,
                   (p.1.2 * (p.2 : ℚ) + q.1.2 * (q.2 : ℚ)) / tot)
  (cs.set i (m, p.2 + q.2)).eraseIdx j

/-- Greedy merge loop: while the closest pair of cluster representatives is
within the distance threshold, merge it; `fuel` bounds the iteration count
(each merge shortens the list, so the initial length suffices). -/
def mergeLoop : ℕ → ℚ → List (Vec2 × ℕ) → List (Vec2 × ℕ)
  | 0, _, cs => cs
  | fuel + 1, t, cs =>
    match selectMin (pairsDist cs) with
    | none => cs
    | some (i, j, d) =>
      if sqrtLtB d t then mergeLoop fuel t (mergeAt cs i j) else cs

/-- Modelled from the spec: the greedy threshold-merge unique-vector
clustering of spec §4.5 (`get_unique_vectors` with the distance-comparison
method; its implementation is not under `src/`, only its test
`test_get_unique_vectors_map_values` is).  The flattened vector set is
reduced to sorted distinct rows with multiplicities, then the closest pair
of representatives is repeatedly merged into its multiplicity-weighted
centroid while the pair's Euclidean distance is below
`distance_threshold`. -/
def get_unique_vectors (l : List Vec2) (distance_threshold : ℚ) : List Vec2 :=
  let cs := uniqueCounts l
  (mergeLoop cs.length distance_threshold cs).map (fun c => c.1)

/-- Per-position vector list of scan position (0, 0) of the calibration
fixture (`test_diffraction_vectors.py` lines 33-89), 7 vectors. -/
def fixtureCell00 : List Vec2 :=
  [(0.089685, 0.292971), (0.017937, 0.277027), (-0.069755, 0.257097),
   (-0.165419, 0.241153), (0.049825, 0.149475), (-0.037867, 0.129545),
   (-0.117587, 0.113601)]

/-- Per-position vector list of scan position (0, 1) of the calibration
fixture, 13 vectors; also the known 13-point list of the edge-filter
scenario. -/
def fixtureCell01 : List Vec2 :=
  [(0.089685, 0.292971), (0.017937, 0.277027), (-0.069755, 0.257097),
   (-0.165419, 0.241153), (0.049825, 0.149475), (-0.037867, 0.129545),
   (-0.117587, 0.113601), (0.149475, 0.065769), (0.229195, 0.045839),
   (0.141503, 0.025909), (0.073741, 0.013951), (0.001993, 0.001993),
   (-0.069755, -0.009965)]

/-- Per-position vector list of scan position (1, 0) of the calibration
fixture, 11 vectors. -/
def fixtureCell10 : List Vec2 :=
  [(0.089685, 0.292971), (0.017937, 0.277027), (-0.069755, 0.257097),
   (-0.165419, 0.241153), (0.049825, 0.149475), (-0.037867, 0.129545),
   (-0.117587, 0.113601), (0.149475, 0.065769), (0.229195, 0.045839),
   (0.141503, 0.025909), (0.073741, 0.013951)]

/-- Per-position vector list of scan position (1, 1) of the calibration
fixture, 1 vector. -/
def fixtureCell11 : List Vec2 :=
  [(0.001993, 0.001993)]

/-- The flattened vector set of the 2×2 calibration fixture grid (spec §4.5:
clustering consumes the concatenation of every position's list). -/
def fixtureAll : List Vec2 :=
  fixtureCell00 ++ fixtureCell01 ++ fixtureCell10 ++ fixtureCell11

/-- Expected unique vectors at `distance_threshold = 0.01`
(`test_diffraction_vectors.py` lines 197-215). -/
def fixtureAnswer001 : List Vec2 :=
  [(-0.165419, 0.241153), (-0.117587, 0.113601), (-0.069755, -0.009965),
   (-0.069755, 0.257097), (-0.037867, 0.129545), (0.001993, 0.001993),
   (0.017937, 0.277027), (0.049825, 0.149475), (0.073741, 0.013951),
   (0.089685, 0.292971), (0.141503, 0.025909), (0.149475, 0.065769),
   (0.229195, 0.045839)]

/-- Expected unique vectors at `distance_threshold = 0.1`
(`test_diffraction_vectors.py` lines 217-229). -/
def fixtureAnswer01 : List Vec2 :=
  [(-0.117587, 0.249125), (-0.077727, 0.121573), (-0.021923, -0.001993),
   (0.053811, 0.284999), (0.049825, 0.149475), (0.121573, 0.03520967),
   (0.229195, 0.045839)]

/-- Componentwise closeness of two rows, the check of
`np.testing.assert_almost_equal` at its default 7 decimals
(`abs(desired - actual) < 1.5 * 10**-7`). -/
def approxRow (a b : Vec2) (eps : ℚ) : Bool :=
  decide (|a.1 - b.1| < eps ∧ |a.2 - b.2| < eps)

/-- Componentwise closeness of two vector tables. -/
def approxList (xs ys : List Vec2) (eps : ℚ) : Bool :=
  (xs.length == ys.length) && (xs.zip ys).all (fun p => approxRow p.1 p.2 eps)

/-- Boolean row-retention predicate of the magnitude filter: the norm is not
below the minimum, not above the maximum, and not zero. -/
def magKeepB (v : Vec2) (mn mx : ℚ) : Bool :=
  !sqrtLtB (normSq v) mn && (!sqrtGtB (normSq v) mx && decide (normSq v ≠ 0))

/-! ### 3D geometry over exact reals

The rotation solver, angle computation and normalization of
`vector_utils.py` operate on Nx3 float arrays; they are embedded over
`Vec3 = Fin 3 → ℝ` with exact real arithmetic. -/

abbrev Vec3 := Fin 3 → ℝ

abbrev Mat3 := Matrix (Fin 3) (Fin 3) ℝ

/-- Euclidean norm of a row, `np.linalg.norm(v, axis=-1)`. -/
noncomputable def norm3 (v : Vec3) : ℝ :=
  Real.sqrt (v 0 ^ 2 + v 1 ^ 2 + v 2 ^ 2)

/-- Row dot product (`np.dot` / `np.einsum` over the last axis). -/
def dot3 (a b : Vec3) : ℝ := a 0 * b 0 + a 1 * b 1 + a 2 * b 2

/-- Row cross product, `np.cross(a, b, axis=-1)`. -/
def cross3 (a b : Vec3) : Vec3 :=
  ![a 1 * b 2 - a 2 * b 1, a 2 * b 0 - a 0 * b 2, a 0 * b 1 - a 1 * b 0]

/-- Sum of absolute components, `np.sum(np.abs(v), axis=-1)`. -/
def sumAbs3 (v : Vec3) : ℝ := |v 0| + |v 1| + |v 2|

/-- Embedding of `np.isclose(x, 0.0)` with the default tolerances
`rtol=1e-5`, `atol=1e-8`: for a zero reference the test is
`|x| ≤ atol + rtol * |0| = 1e-8`. -/
def isclose0 (x : ℝ) : Prop := |x| ≤ 1 / 100000000

noncomputable instance isclose0_decidable (x : ℝ) : Decidable (isclose0 x) :=
  inferInstanceAs (Decidable (|x| ≤ 1 / 100000000))

/-- Row operation of `normalize_or_zero(v)` (`vector_utils.py` lines
153-164): a row is divided by its norm when the norm is positive and left
unchanged otherwise (`nonzero_mask = norms > 0`). -/
noncomputable def normalizeRow (v : Vec3) : Vec3 :=
  if norm3 v > 0 then fun i => v i / norm3 v else v

/-- Embedding of `normalize_or_zero(v)` acting on a batch of rows; the
`np.any(nonzero_mask)` guard in the source only skips an empty in-place
update and is elementwise invisible. -/
noncomputable def normalize_or_zero (v : List Vec3) : List Vec3 :=
  v.map normalizeRow

/-- Row operation of `get_angle_cartesian_vec(a, b)` (`vector_utils.py`
lines 267-297): the angle is `0` where the product of the norms is zero
(`denom_nonzero` mask), else the arccosine of the normalized dot product
clipped to `[-1, 1]` (`np.clip(..., -1.0, 1.0)`). -/
noncomputable def angleRow (a b : Vec3) : ℝ :=
  if norm3 a * norm3 b ≠ 0 then
    Real.arccos (max (-1) (min 1 (dot3 a b / (norm3 a * norm3 b))))
  else 0

/-- Embedding of `get_angle_cartesian_vec(a, b)`: raises `ValueError` when
`a.shape != b.shape` (for lists of rows, exactly when the lengths differ),
otherwise returns the per-row angles. -/
noncomputable def get_angle_cartesian_vec (a b : List Vec3) :
    Except String (List ℝ) :=
  if a.length ≠ b.length then
    Except.error "The shape of a and b must be the same."
  else
    Except.ok (List.zipWith angleRow a b)

/-- Embedding of `transforms3d.axangles.axangle2mat(axis, angle,
is_normalized=True)`: the Rodrigues rotation matrix about a unit axis. -/
noncomputable def axangle2mat (axis : Vec3) (angle : ℝ) : Mat3 :=
  let x := axis 0
  let y := axis 1
  let z := axis 2
  let c := Real.cos angle
  let s := Real.sin angle
  let C := 1 - c
  !![x * x * C + c, x * y * C - z * s, z * x * C + y * s;
     x * y * C + z * s, y * y * C + c, y * z * C - x * s;
     z * x * C - y * s, y * z * C + x * s, z * z * C + c]

/-- Per-entry to-plane normal with the degenerate fallback chain of
`get_rotation_matrix_between_vectors` (`vector_utils.py` lines 190-195):
a near-zero `to_v1 × to_v2` is replaced by `from_v1 × to_v1`, and if that
is still near-zero, by `from_v2 × to_v2`. -/
noncomputable def plane_normal_to_entry (from_v1 from_v2 t1 t2 : Vec3) : Vec3 :=
  let n0 := cross3 t1 t2
  let n1 := if isclose0 (sumAbs3 n0) then cross3 from_v1 t1 else n0
  if isclose0 (sumAbs3 n1) then cross3 from_v2 t2 else n1

/-- Per-entry plane-alignment rotation `R1` (`vector_utils.py` lines
197-216): rotate about the normalized common axis
`(from_v1 × from_v2) × (to_v1 × to_v2)` by the angle between the from-plane
normal and the normalized (fallback) to-plane normal; identity where the
common axis is near-zero (`common_valid` mask). -/
noncomputable def R1_entry (from_v1 from_v2 t1 t2 : Vec3) : Mat3 :=
  let plane_normal_from := cross3 from_v1 from_v2
  let axis := normalizeRow (cross3 plane_normal_from (cross3 t1 t2))
  if ¬ isclose0 (sumAbs3 axis) then
    axangle2mat axis
      (angleRow plane_normal_from
        (normalizeRow (plane_normal_to_entry from_v1 from_v2 t1 t2)))
  else 1

/-- Per-entry in-plane rotation `R2` (`vector_utils.py` lines 218-243):
rotate about the normalized to-plane normal by the average of the two
from→to angles after `R1`, negated where the rotation axis
`(R1·from_v1) × to_v1` opposes the to-plane normal. -/
noncomputable def R2_entry (from_v1 from_v2 t1 t2 : Vec3) : Mat3 :=
  let n_to := normalizeRow (plane_normal_to_entry from_v1 from_v2 t1 t2)
  let R1 := R1_entry from_v1 from_v2 t1 t2
  let rot1 := R1.mulVec from_v1
  let rot2 := R1.mulVec from_v2
  let avg := (1 / 2 : ℝ) * (angleRow rot1 t1 + angleRow rot2 t2)
  let ang := if dot3 (cross3 rot1 t1) n_to < 0 then -avg else avg
  axangle2mat n_to ang

/-- Per-entry total rotation, `R = R2 @ R1`. -/
noncomputable def rotation_entry (from_v1 from_v2 t1 t2 : Vec3) : Mat3 :=
  R2_entry from_v1 from_v2 t1 t2 * R1_entry from_v1 from_v2 t1 t2

/-- Embedding of `get_rotation_matrix_between_vectors(from_v1, from_v2,
to_v1, to_v2)` (`vector_utils.py` lines 167-248), staged exactly as the
vectorized source: batch cross products, the degenerate-to-plane fallback
chain, normalization of the rotation axes, the `common_valid` mask
selecting `R1 = identity`, the averaged and sign-corrected in-plane angle,
and the final `R = np.matmul(R2, R1)`.  The elementwise sign correction
(`np.negative(angles, out=angles, where=neg_angle_mask)`) is expressed by
zipping the to-plane normals with the averaged angles. -/
noncomputable def get_rotation_matrix_between_vectors
    (from_v1 from_v2 : Vec3) (to_v1 to_v2 : List Vec3) : List Mat3 :=
  let plane_normal_from := cross3 from_v1 from_v2
  let plane_normal_to0 := List.zipWith cross3 to_v1 to_v2
  let plane_common_axes := plane_normal_to0.map (fun n => cross3 plane_normal_from n)
  let pnt1 := List.zipWith
    (fun n t1 => if isclose0 (sumAbs3 n) then cross3 from_v1 t1 else n)
    plane_normal_to0 to_v1
  let pnt2 := List.zipWith
    (fun n t2 => if isclose0 (sumAbs3 n) then cross3 from_v2 t2 else n)
    pnt1 to_v2
  let plane_normal_to := pnt2.map normalizeRow
  let axes := plane_common_axes.map normalizeRow
  let angles := plane_normal_to.map (fun n => angleRow plane_normal_from n)
  let R1 := List.zipWith
    (fun ax ang => if ¬ isclose0 (sumAbs3 ax) then axangle2mat ax ang else 1)
    axes angles
  let rot_from_v1 := R1.map (fun R => R.mulVec from_v1)
  let rot_from_v2 := R1.map (fun R => R.mulVec from_v2)
  let angle1 := List.zipWith angleRow rot_from_v1 to_v1
  let angle2 := List.zipWith angleRow rot_from_v2 to_v2
  let avg := List.zipWith (fun a b => (1 / 2 : ℝ) * (a + b)) angle1 angle2
  let angs := List.zipWith3
    (fun r1 t1 na => if dot3 (cross3 r1 t1) na.1 < 0 then -na.2 else na.2)
    rot_from_v1 to_v1 (plane_normal_to.zip avg)
  let R2 := List.zipWith axangle2mat plane_normal_to angs
  List.zipWith (fun r2 r1 => r2 * r1) R2 R1

/-! ### Theorems -/

theorem normSq_nonneg (v : Vec2) : 0 ≤ normSq v := by
  unfold normSq
  nlinarith [mul_self_nonneg v.1, mul_self_nonneg v.2]

theorem distSq_nonneg (a b : Vec2) : 0 ≤ distSq a b := by
  unfold distSq
  nlinarith [mul_self_nonneg (a.1 - b.1), mul_self_nonneg (a.2 - b.2)]

theorem sqrtLtB_iff (s t : ℚ) :
    sqrtLtB s t = true ↔ Real.sqrt s < (t : ℝ) := by
  unfold sqrtLtB
  rw [decide_eq_true_eq]
  constructor
  · rintro ⟨ht, hlt⟩
    have ht' : (0 : ℝ) < (t : ℝ) := by exact_mod_cast ht
    rw [Real.sqrt_lt' ht', pow_two]
    exact_mod_cast hlt
  · intro h
    have ht : (0 : ℝ) < (t : ℝ) :=
      lt_of_le_of_lt (Real.sqrt_nonneg (s : ℝ)) h
    refine ⟨by exact_mod_cast ht, ?_⟩
    rw [Real.sqrt_lt' ht, pow_two] at h
    exact_mod_cast h

theorem sqrtGtB_iff (s t : ℚ) :
    sqrtGtB s t = true ↔ (t : ℝ) < Real.sqrt s := by
  unfold sqrtGtB
  rw [decide_eq_true_eq]
  constructor
  · rintro (ht | hlt)
    · have ht' : (t : ℝ) < 0 := by exact_mod_cast ht
      exact lt_of_lt_of_le ht' (Real.sqrt_nonneg _)
    · rcases le_or_lt t 0 with ht | ht
      · rcases lt_or_eq_of_le ht with ht0 | ht0
        · exact lt_of_lt_of_le (by exact_mod_cast ht0)
            (Real.sqrt_nonneg _)
        · have hs' : (0 : ℚ) < s := by nlinarith [hlt]
          have hpos : (0 : ℝ) < Real.sqrt s := by
            rw [Real.sqrt_pos]; exact_mod_cast hs'
          rw [ht0]; push_cast; exact hpos
      · have ht' : (0 : ℝ) ≤ (t : ℝ) := by positivity
        rw [Real.lt_sqrt ht', pow_two]
        exact_mod_cast hlt
  · intro h
    rcases lt_or_le t 0 with ht | ht
    · exact Or.inl ht
    · right
      have ht' : (0 : ℝ) ≤ (t : ℝ) := by exact_mod_cast ht
      rw [Real.lt_sqrt ht', pow_two] at h
      exact_mod_cast h

theorem sqrtNeZero_iff (s : ℚ) (hs : 0 ≤ s) :
    s ≠ 0 ↔ Real.sqrt s ≠ 0 := by
  have hs' : (0 : ℝ) ≤ (s : ℝ) := by exact_mod_cast hs
  rw [ne_eq, ne_eq, Real.sqrt_eq_zero hs']
  constructor
  · intro h h'; exact h (by exact_mod_cast h')
  · intro h h'; exact h (by exact_mod_cast h')

theorem nth_mem {α : Type} (l : List α) (i : ℕ) (d : α) (h : i < l.length) :
    nth l i d ∈ l := by
  induction l generalizing i with
  | nil => simp at h
  | cons x xs ih =>
    cases i with
    | zero => simp [nth]
    | succ n =>
      simp only [nth]
      right
      exact ih n (by simpa using h)

theorem argminGo_lt (xs : List ℚ) (best : ℚ) (bestIdx cur N : ℕ)
    (h1 : bestIdx < N) (h2 : cur + xs.length ≤ N) :
    argminGo xs best bestIdx cur < N := by
  induction xs generalizing best bestIdx cur with
  | nil => simpa [argminGo] using h1
  | cons x rest ih =>
    simp only [argminGo]
    by_cases hx : x < best
    · simp only [if_pos hx]
      exact ih x cur (cur + 1)
        (by simp at h2; omega) (by simp at h2; omega)
    · simp only [if_neg hx]
      exact ih best bestIdx (cur + 1) h1 (by simp at h2; omega)

theorem argminIdx_lt_length (l : List ℚ) (h : l ≠ []) :
    argminIdx l < l.length := by
  cases l with
  | nil => exact absurd rfl h
  | cons x xs =>
    simp only [argminIdx, List.length_cons]
    exact argminGo_lt xs x 0 1 (xs.length + 1) (by omega) (by omega)

theorem nth_map {α β : Type} (f : α → β) (l : List α) (i : ℕ) (d : α)
    (d' : β) (h : i < l.length) :
    nth (l.map f) i d' = f (nth l i d) := by
  induction l generalizing i with
  | nil => simp at h
  | cons x xs ih =>
    cases i with
    | zero => rfl
    | succ n => exact ih n (by simpa using h)

theorem argminGo_spec (xs : List ℚ) (best : ℚ) (bestIdx cur : ℕ) (l : List ℚ)
    (hbest : nth l bestIdx 0 = best)
    (hshift : ∀ j, j < xs.length → nth l (cur + j) 0 = nth xs j 0) :
    nth l (argminGo xs best bestIdx cur) 0 ≤ best ∧
    ∀ x ∈ xs, nth l (argminGo xs best bestIdx cur) 0 ≤ x := by
  induction xs generalizing best bestIdx cur with
  | nil =>
    simp only [argminGo]
    exact ⟨le_of_eq hbest, by simp⟩
  | cons x rest ih =>
    have hx0 : nth l cur 0 = x := by
      have h0 := hshift 0 (Nat.succ_pos rest.length)
      simpa using h0
    have hshift' : ∀ j, j < rest.length → nth l (cur + 1 + j) 0 = nth rest j 0 := by
      intro j hj
      have hidx : cur + 1 + j = cur + (j + 1) := by omega
      have hj' := hshift (j + 1) (Nat.succ_lt_succ hj)
      rw [hidx, hj']
      rfl
    simp only [argminGo]
    by_cases hlt : x < best
    · rw [if_pos hlt]
      obtain ⟨h1, h2⟩ := ih x cur (cur + 1) hx0 hshift'
      refine ⟨le_trans h1 (le_of_lt hlt), ?_⟩
      intro y hy
      rcases List.mem_cons.mp hy with hy | hy
      · rw [hy]
        exact h1
      · exact h2 y hy
    · rw [if_neg hlt]
      obtain ⟨h1, h2⟩ := ih best bestIdx (cur + 1) hbest hshift'
      refine ⟨h1, ?_⟩
      intro y hy
      rcases List.mem_cons.mp hy with hy | hy
      · rw [hy]
        exact le_trans h1 (not_lt.mp hlt)
      · exact h2 y hy

theorem argminIdx_min (l : List ℚ) : ∀ x ∈ l, nth l (argminIdx l) 0 ≤ x := by
  cases l with
  | nil =>
    intro x hx
    simp at hx
  | cons y ys =>
    have hshift : ∀ j, j < ys.length → nth (y :: ys) (1 + j) 0 = nth ys j 0 := by
      intro j hj
      rw [Nat.add_comm 1 j]
      rfl
    have hspec := argminGo_spec ys y 0 1 (y :: ys) rfl hshift
    intro x hx
    rcases List.mem_cons.mp hx with hx | hx
    · rw [hx]
      exact hspec.1
    · exact hspec.2 x hx

theorem filter_vectors_edge_ragged_state (z : List Vec2) (xt yt : ℚ) :
    (filter_vectors_edge_ragged z xt yt).1 =
      z.map (fun v => if |v.1| > xt ∨ |v.2| > yt then ((0 : ℚ), (0 : ℚ)) else v) := by
  simp only [filter_vectors_edge_ragged, List.map_map]
  apply List.map_congr_left
  intro v _
  simp only [Function.comp_apply]
  by_cases h1 : |v.1| > xt
  · simp [h1]
  · by_cases h2 : |v.2| > yt
    · simp [h1, h2]
    · simp [h1, h2]

theorem filter_vectors_edge_ragged_ret (z : List Vec2) (xt yt : ℚ) :
    (filter_vectors_edge_ragged z xt yt).2 =
      z.filter (fun v => decide (|v.1| ≤ xt ∧ |v.2| ≤ yt ∧ v.1 ≠ 0)) := by
  have hsnd : (filter_vectors_edge_ragged z xt yt).2 =
      ((filter_vectors_edge_ragged z xt yt).1).filter
        (fun v => decide (v.1 ≠ 0)) := rfl
  rw [hsnd, filter_vectors_edge_ragged_state, List.filter_map]
  have hq : ∀ v ∈ z,
      ((fun v : Vec2 => decide (v.1 ≠ 0)) ∘
        (fun v : Vec2 => if |v.1| > xt ∨ |v.2| > yt then ((0 : ℚ), (0 : ℚ)) else v)) v =
      (fun v : Vec2 => decide (|v.1| ≤ xt ∧ |v.2| ≤ yt ∧ v.1 ≠ 0)) v := by
    intro v _
    by_cases hc : |v.1| > xt ∨ |v.2| > yt
    · simp only [Function.comp_apply, if_pos hc]
      rcases hc with hc | hc
      · simp [not_le.mpr hc]
      · simp [not_le.mpr hc]
    · push_neg at hc
      have hcc : ¬ (|v.1| > xt ∨ |v.2| > yt) := by
        rintro (h | h)
        · exact absurd hc.1 (not_le.mpr h)
        · exact absurd hc.2 (not_le.mpr h)
      simp only [Function.comp_apply, if_neg hcc]
      simp [hc.1, hc.2]
  rw [List.filter_congr hq]
  have hid : ∀ v ∈ z.filter
      (fun v : Vec2 => decide (|v.1| ≤ xt ∧ |v.2| ≤ yt ∧ v.1 ≠ 0)),
      (fun v : Vec2 => if |v.1| > xt ∨ |v.2| > yt then ((0 : ℚ), (0 : ℚ)) else v) v =
        (fun v : Vec2 => v) v := by
    intro v hv
    rw [List.mem_filter] at hv
    have hv2 := of_decide_eq_true hv.2
    have hcc : ¬ (|v.1| > xt ∨ |v.2| > yt) := by
      rintro (h | h)
      · exact absurd hv2.1 (not_le.mpr h)
      · exact absurd hv2.2.1 (not_le.mpr h)
    simp only [if_neg hcc]
  calc (z.filter
      (fun v : Vec2 => decide (|v.1| ≤ xt ∧ |v.2| ≤ yt ∧ v.1 ≠ 0))).map
        (fun v : Vec2 => if |v.1| > xt ∨ |v.2| > yt then ((0 : ℚ), (0 : ℚ)) else v)
      = (z.filter
      (fun v : Vec2 => decide (|v.1| ≤ xt ∧ |v.2| ≤ yt ∧ v.1 ≠ 0))).map
        (fun v : Vec2 => v) := List.map_congr_left hid
    _ = z.filter
      (fun v : Vec2 => decide (|v.1| ≤ xt ∧ |v.2| ≤ yt ∧ v.1 ≠ 0)) := List.map_id' _

/-- C1 counterexample: the claim predicts that a vector with `x = 0`,
`y ≠ 0` and both coordinates within the thresholds is retained, but
`filter_vectors_edge_ragged` selects rows by `np.where(z.T[0])` and drops
every vector with zero x-coordinate: on `[(0, 1)]` with thresholds `2, 2`
the returned list is empty.  Moreover on the known 13-point fixture list
with both thresholds `0.26` the function excludes 2 points (the two rows
with `y > 0.26`), not 1. -/
theorem C1_counterexample :
    (filter_vectors_edge_ragged [((0 : ℚ), (1 : ℚ))] 2 2).2 = [] ∧
    ((filter_vectors_edge_ragged fixtureCell01 (26/100) (26/100)).2).length =
      fixtureCell01.length - 2 := by
  constructor
  · decide
  · decide

/-- C1 (amended): `filter_vectors_edge_ragged` returns, in input order,
exactly the vectors with `|x| ≤ x_threshold`, `|y| ≤ y_threshold` and
`x ≠ 0` — the additional exclusion is every vector whose x-coordinate is
zero (not merely the vector at the origin); on the known 13-point fixture
list with `x_threshold = y_threshold = 0.26` exactly 2 points are
excluded. -/
theorem C1_edge_filter_amended :
    (∀ (z : List Vec2) (xt yt : ℚ),
      (filter_vectors_edge_ragged z xt yt).2 =
        z.filter (fun v => decide (|v.1| ≤ xt ∧ |v.2| ≤ yt ∧ v.1 ≠ 0))) ∧
    fixtureCell01.length = 13 ∧
    ((filter_vectors_edge_ragged fixtureCell01 (26/100) (26/100)).2).length = 11 := by
  refine ⟨filter_vectors_edge_ragged_ret, by decide, by decide⟩

/-- C2 counterexample: `filter_vectors_edge_ragged` mutates its argument
(numpy rows are zeroed in place): after the call on `[(3, 1/2)]` with
thresholds `1, 1` the argument array holds `[(0, 0)]`, not the original
vector. -/
theorem C2_counterexample :
    (filter_vectors_edge_ragged [((3 : ℚ), (1 : ℚ) / 2)] 1 1).1 ≠
      [((3 : ℚ), (1 : ℚ) / 2)] := by
  decide

/-- C2 (amended): `filter_vectors_ragged` (magnitude filtering) indeed
returns a new filtered list and leaves its argument unchanged, but
`filter_vectors_edge_ragged` mutates the argument in place, overwriting
with zeros every row whose `|x|` exceeds the x-threshold or whose `|y|`
exceeds the y-threshold. -/
theorem C2_filter_mutation_amended :
    (∀ (z : List Vec2) (mn mx : ℚ), (filter_vectors_ragged z mn mx).1 = z) ∧
    (∀ (z : List Vec2) (xt yt : ℚ),
      (filter_vectors_edge_ragged z xt yt).1 =
        z.map (fun v => if |v.1| > xt ∨ |v.2| > yt then ((0 : ℚ), (0 : ℚ)) else v)) := by
  exact ⟨fun _ _ _ => rfl, filter_vectors_edge_ragged_state⟩

/-- C10 (confirmed): `detector_to_fourier` never reads its `camera_length`
argument, so its output is identical for any two camera-length values. -/
theorem C10_camera_length_unused :
    ∀ (k_xy : List Vec2) (wavelength c1 c2 : ℚ),
      detector_to_fourier k_xy wavelength c1 =
        detector_to_fourier k_xy wavelength c2 :=
  fun _ _ _ _ => rfl

/-- C8 counterexample: at `distance_threshold = 0.1` on the calibration
fixture the claimed output (the literal table pinned by the test) is not
sorted by representative coordinate: the row `(0.053811, 0.284999)` precedes
`(0.049825, 0.149475)`. -/
theorem C8_counterexample :
    lexSortedB (get_unique_vectors fixtureAll (1/10)) = false := by
  decide

/-- C8 (amended): greedy threshold-merge clustering of the flattened 2×2
calibration fixture (per-position lists of lengths 7, 13, 11, 1) yields
exactly 13 representatives at threshold `0.01` — the sorted distinct
vectors, matching the pinned literals exactly — and exactly 7 at threshold
`0.1`, matching the pinned literals to the test's 7-decimal tolerance; the
`0.1` table is ordered by the position of each cluster's earliest member in
the sorted unique table (which coincides with a coordinate sort at `0.01`
but not at `0.1`). -/
theorem C8_unique_vectors_amended :
    fixtureCell00.length = 7 ∧ fixtureCell01.length = 13 ∧
    fixtureCell10.length = 11 ∧ fixtureCell11.length = 1 ∧
    (get_unique_vectors fixtureAll (1/100)).length = 13 ∧
    get_unique_vectors fixtureAll (1/100) = fixtureAnswer001 ∧
    lexSortedB (get_unique_vectors fixtureAll (1/100)) = true ∧
    (get_unique_vectors fixtureAll (1/10)).length = 7 ∧
    approxList (get_unique_vectors fixtureAll (1/10)) fixtureAnswer01
      (15/100000000) = true := by
  refine ⟨by decide, by decide, by decide, by decide, ?_, ?_, ?_, ?_, ?_⟩
  · decide
  · decide
  · decide
  · decide
  · decide


theorem filter_vectors_ragged_ret (z : List Vec2) (mn mx : ℚ) :
    (filter_vectors_ragged z mn mx).2 = z.filter (fun v => magKeepB v mn mx) := by
  induction z with
  | nil => rfl
  | cons v rest ih =>
    simp only [filter_vectors_ragged, List.map_cons, List.zip_cons_cons,
      List.filterMap_cons, List.filter_cons] at ih ⊢
    by_cases hlt : sqrtLtB (normSq v) mn
    · simpa [magKeepB, hlt] using ih
    · by_cases hgt : sqrtGtB (normSq v) mx
      · simpa [magKeepB, hlt, hgt] using ih
      · by_cases hz : normSq v = 0
        · simpa [magKeepB, hlt, hgt, hz] using ih
        · simpa [magKeepB, hlt, hgt, hz] using ih

theorem magKeepB_iff (v : Vec2) (mn mx : ℚ) :
    magKeepB v mn mx = true ↔
      ((mn : ℝ) ≤ Real.sqrt (normSq v) ∧ Real.sqrt (normSq v) ≤ (mx : ℝ) ∧
        Real.sqrt (normSq v) ≠ 0) := by
  have h1 : sqrtLtB (normSq v) mn = false ↔ (mn : ℝ) ≤ Real.sqrt (normSq v) := by
    rw [Bool.eq_false_iff, ne_eq, sqrtLtB_iff, not_lt]
  have h2 : sqrtGtB (normSq v) mx = false ↔ Real.sqrt (normSq v) ≤ (mx : ℝ) := by
    rw [Bool.eq_false_iff, ne_eq, sqrtGtB_iff, not_lt]
  have h3 : decide (normSq v ≠ 0) = true ↔ Real.sqrt (normSq v) ≠ 0 := by
    rw [decide_eq_true_eq, sqrtNeZero_iff (normSq v) (normSq_nonneg v)]
  rw [magKeepB, Bool.and_eq_true, Bool.and_eq_true, Bool.not_eq_true',
    Bool.not_eq_true', h1, h2, h3]

/-- C6 (confirmed): `filter_vectors_ragged` returns, in input order, exactly
the vectors whose Euclidean norm lies in the inclusive range
`[min_magnitude, max_magnitude]` and is not zero (the truthiness selection
`z[np.where(norms)]` always drops a zero-norm vector); consequently with
`min_magnitude = 0` and a maximum at least as large as every norm (the
`[0, ∞)` case) the result is exactly the nonzero-norm subset. -/
theorem C6_filter_magnitude_spec :
    (∀ (z : List Vec2) (mn mx : ℚ),
      (filter_vectors_ragged z mn mx).2 = z.filter (fun v => magKeepB v mn mx)) ∧
    (∀ (v : Vec2) (mn mx : ℚ),
      magKeepB v mn mx = true ↔
        ((mn : ℝ) ≤ Real.sqrt (normSq v) ∧ Real.sqrt (normSq v) ≤ (mx : ℝ) ∧
          Real.sqrt (normSq v) ≠ 0)) ∧
    (∀ (z : List Vec2) (mx : ℚ),
      (∀ v ∈ z, Real.sqrt (normSq v) ≤ (mx : ℝ)) →
      (filter_vectors_ragged z 0 mx).2 =
        z.filter (fun v => decide (normSq v ≠ 0))) := by
  refine ⟨filter_vectors_ragged_ret, magKeepB_iff, ?_⟩
  intro z mx h
  rw [filter_vectors_ragged_ret]
  apply List.filter_congr
  intro v hv
  have hb := h v hv
  by_cases hz : normSq v = 0
  · simp [magKeepB, hz, sqrtLtB, sqrtGtB]
  · have hkeep : magKeepB v 0 mx = true := by
      rw [magKeepB_iff]
      refine ⟨by simpa using Real.sqrt_nonneg ((normSq v : ℝ)), hb, ?_⟩
      rw [← sqrtNeZero_iff (normSq v) (normSq_nonneg v)]
      exact hz
    rw [hkeep, eq_comm, decide_eq_true_eq]
    exact hz

/-- C6 witness: the third part at a concrete input — filtering `[(3, 4),
(0, 0)]` with bounds `[0, 100]` keeps exactly the nonzero-norm vector. -/
theorem C6_witness :
    (filter_vectors_ragged [((3 : ℚ), (4 : ℚ)), ((0 : ℚ), (0 : ℚ))] 0 100).2 =
      [((3 : ℚ), (4 : ℚ))] := by
  have hbound : ∀ v ∈ [((3 : ℚ), (4 : ℚ)), ((0 : ℚ), (0 : ℚ))],
      Real.sqrt (normSq v) ≤ ((100 : ℚ) : ℝ) := by
    intro v hv
    simp only [List.mem_cons, List.mem_singleton, List.not_mem_nil, or_false] at hv
    rcases hv with hv | hv
    · rw [hv]
      have h25 : ((normSq ((3 : ℚ), (4 : ℚ)) : ℚ) : ℝ) = (5 : ℝ) ^ 2 := by
        norm_num [normSq]
      rw [h25, Real.sqrt_sq (by norm_num : (0 : ℝ) ≤ 5)]
      norm_num
    · rw [hv]
      have h0 : ((normSq ((0 : ℚ), (0 : ℚ)) : ℚ) : ℝ) = 0 := by
        norm_num [normSq]
      rw [h0, Real.sqrt_zero]
      norm_num
  have h := C6_filter_magnitude_spec.2.2
    [((3 : ℚ), (4 : ℚ)), ((0 : ℚ), (0 : ℚ))] 100 hbound
  rw [h]
  decide

theorem distSq_pos (a b : Vec2) (h : a ≠ b) : 0 < distSq a b := by
  unfold distSq
  rcases eq_or_ne a.1 b.1 with h1 | h1
  · have h2 : a.2 ≠ b.2 := by
      intro h2
      exact h (Prod.ext h1 h2)
    have hp : 0 < (a.2 - b.2) * (a.2 - b.2) := mul_self_pos.mpr (sub_ne_zero.mpr h2)
    nlinarith [mul_self_nonneg (a.1 - b.1)]
  · have hp : 0 < (a.1 - b.1) * (a.1 - b.1) := mul_self_pos.mpr (sub_ne_zero.mpr h1)
    nlinarith [mul_self_nonneg (a.2 - b.2)]

theorem near_basis_entry (vectors : List Vec2) (b : Vec2) (d : ℚ)
    (hne : vectors ≠ []) :
    ((if sqrtGtB (nth (vectors.map (fun v => distSq v b))
        (argminIdx (vectors.map (fun v => distSq v b))) 0) d
      then none
      else some (nth vectors (argminIdx (vectors.map (fun v => distSq v b)))
        ((0 : ℚ), (0 : ℚ)))) = (none : Option Vec2)) ↔
    ∀ v ∈ vectors, (d : ℝ) < Real.sqrt (distSq v b) := by
  have hdsne : vectors.map (fun v => distSq v b) ≠ [] := fun hh =>
    hne (by simpa using congrArg List.length hh)
  have hia := argminIdx_lt_length _ hdsne
  by_cases hgt : sqrtGtB (nth (vectors.map (fun v => distSq v b))
      (argminIdx (vectors.map (fun v => distSq v b))) 0) d
  · rw [if_pos hgt]
    refine ⟨fun _ v hv => ?_, fun _ => rfl⟩
    have hdlt := (sqrtGtB_iff _ _).mp hgt
    have hmem := List.mem_map_of_mem (fun v => distSq v b) hv
    have hmin := argminIdx_min (vectors.map (fun v => distSq v b))
      (distSq v b) hmem
    have hsq : Real.sqrt ((nth (vectors.map (fun v => distSq v b))
        (argminIdx (vectors.map (fun v => distSq v b))) 0 : ℚ)) ≤
        Real.sqrt ((distSq v b : ℚ)) :=
      Real.sqrt_le_sqrt (by exact_mod_cast hmin)
    exact lt_of_lt_of_le hdlt hsq
  · rw [if_neg hgt]
    constructor
    · intro hsome
      exact absurd hsome (Option.some_ne_none _)
    · intro hall
      exfalso
      apply hgt
      have hmem := nth_mem (vectors.map (fun v => distSq v b))
        (argminIdx (vectors.map (fun v => distSq v b))) 0 hia
      rcases List.mem_map.mp hmem with ⟨v0, hv0, hval⟩
      rw [sqrtGtB_iff, ← hval]
      exact hall v0 hv0

/-- C3 (confirmed): `filter_vectors_near_basis` always returns exactly
`len(basis)` rows in basis order; on an empty vector list it returns an
all-NaN table shaped like `basis` without raising; for any gating distance
`d`, row `i` of the result is a NaN row exactly when the minimal Euclidean
distance from the input vectors to `basis[i]` exceeds `d` (equivalently,
when every input vector is farther than `d` from `basis[i]`), so every
match whose distance exceeds the gate is replaced by NaN and the others
are kept; and in particular with distance `0`, when no input vector
coincides with any basis vector, every returned row is NaN.  (NaN rows
are modelled as `none`; the integer-to-float dtype promotion of the
source is invisible in the exact rational model.) -/
theorem C3_match_to_basis_spec :
    (∀ (vectors basis : List Vec2) (d : Option ℚ),
      (filter_vectors_near_basis vectors basis d).length = basis.length) ∧
    (∀ (basis : List Vec2) (d : Option ℚ),
      filter_vectors_near_basis [] basis d = basis.map (fun _ => none)) ∧
    (∀ (vectors basis : List Vec2) (d : ℚ),
      vectors ≠ [] →
      ∀ i, i < basis.length →
      (nth (filter_vectors_near_basis vectors basis (some d)) i none = none ↔
        ∀ v ∈ vectors,
          (d : ℝ) < Real.sqrt (distSq v (nth basis i ((0 : ℚ), (0 : ℚ)))))) ∧
    (∀ (vectors basis : List Vec2),
      vectors ≠ [] →
      (∀ v ∈ vectors, ∀ b ∈ basis, v ≠ b) →
      ∀ r ∈ filter_vectors_near_basis vectors basis (some 0), r = none) := by
  refine ⟨?_, ?_, ?_, ?_⟩
  · intro vectors basis d
    unfold filter_vectors_near_basis
    split
    · rw [List.length_map]
    · rw [List.length_map]
  · intro basis d
    rfl
  · intro vectors basis d hne i hi
    unfold filter_vectors_near_basis
    rw [if_neg (fun hh => hne (List.length_eq_zero.mp hh))]
    rw [nth_map _ basis i ((0 : ℚ), (0 : ℚ)) none hi]
    exact near_basis_entry vectors (nth basis i ((0 : ℚ), (0 : ℚ))) d hne
  · intro vectors basis hne hvb r hr
    unfold filter_vectors_near_basis at hr
    rw [if_neg (fun hh => hne (List.length_eq_zero.mp hh))] at hr
    rcases List.mem_map.mp hr with ⟨b, hb, hfb⟩
    have hdsne : vectors.map (fun v => distSq v b) ≠ [] := by
      intro hh
      apply hne
      simpa using congrArg List.length hh
    have hi := argminIdx_lt_length _ hdsne
    have hmem := nth_mem (vectors.map (fun v => distSq v b))
      (argminIdx (vectors.map (fun v => distSq v b))) 0 hi
    rcases List.mem_map.mp hmem with ⟨v, hv, hvd⟩
    have hpos : 0 < nth (vectors.map (fun v => distSq v b))
        (argminIdx (vectors.map (fun v => distSq v b))) 0 := by
      rw [← hvd]
      exact distSq_pos v b (hvb v hv b hb)
    have hgt : sqrtGtB (nth (vectors.map (fun v => distSq v b))
        (argminIdx (vectors.map (fun v => distSq v b))) 0) 0 = true := by
      unfold sqrtGtB
      rw [decide_eq_true_eq]
      right
      simpa using hpos
    rw [← hfb]
    simp only [hgt, if_true]

/-- C3 witness: a mixed gating case — matching `[(0,0), (3,4)]` against the
basis `[(0,0), (10,10)]` with `distance = 1` keeps the exact match for the
first basis vector and replaces the out-of-range match for the second with
NaN; and matching `[(1,1)]` against `[(0,0)]` with `distance = 0` gives a
single NaN row. -/
theorem C3_witness :
    filter_vectors_near_basis [((0 : ℚ), (0 : ℚ)), ((3 : ℚ), (4 : ℚ))]
        [((0 : ℚ), (0 : ℚ)), ((10 : ℚ), (10 : ℚ))] (some 1) =
      [some ((0 : ℚ), (0 : ℚ)), none] ∧
    filter_vectors_near_basis [((1 : ℚ), (1 : ℚ))] [((0 : ℚ), (0 : ℚ))]
      (some 0) = [none] := by
  constructor
  · have hfar : ∀ v ∈ [((0 : ℚ), (0 : ℚ)), ((3 : ℚ), (4 : ℚ))],
        ((1 : ℚ) : ℝ) < Real.sqrt (distSq v
          (nth [((0 : ℚ), (0 : ℚ)), ((10 : ℚ), (10 : ℚ))] 1
            ((0 : ℚ), (0 : ℚ)))) := by
      intro v hv
      simp only [List.mem_cons, List.not_mem_nil, or_false] at hv
      have hone : ((1 : ℚ) : ℝ) = 1 := by norm_num
      rcases hv with hv | hv
      · rw [hv, hone, Real.lt_sqrt (by norm_num : (0 : ℝ) ≤ 1)]
        norm_num [distSq, nth]
      · rw [hv, hone, Real.lt_sqrt (by norm_num : (0 : ℝ) ≤ 1)]
        norm_num [distSq, nth]
    have hnone := (C3_match_to_basis_spec.2.2.1
      [((0 : ℚ), (0 : ℚ)), ((3 : ℚ), (4 : ℚ))]
      [((0 : ℚ), (0 : ℚ)), ((10 : ℚ), (10 : ℚ))] 1 (by decide) 1
      (by decide)).mpr hfar
    revert hnone
    decide
  · have h := C3_match_to_basis_spec.2.2.2 [((1 : ℚ), (1 : ℚ))]
      [((0 : ℚ), (0 : ℚ))] (by decide) (by decide)
    revert h
    decide

/-- C7 counterexample: at the boundary `|xy| = 1/wavelength` the square-root
argument is exactly zero and `detector_to_fourier` produces the finite value
`-1/wavelength`, not a NaN: with `wavelength = 1` and `xy = [(1, 0)]` the
result is `[(1, 0, -1)]`, so the claim's condition `|xy| ≥ 1/wavelength`
(non-strict) is wrong at equality. -/
theorem C7_counterexample :
    detector_to_fourier [((1 : ℚ), (0 : ℚ))] 1 1 =
      [((1 : ℚ), (0 : ℚ), some (-1 : ℝ))] ∧
    some (-1 : ℝ) ≠ (none : Option ℝ) := by
  constructor
  · simp only [detector_to_fourier, fourierRow, List.map_cons, List.map_nil]
    norm_num [normSq]
  · simp

/-- C7 (amended): `detector_to_fourier` maps every N×2 input to an N×3
output whose first two columns equal the input; the third column is NaN
(`none`) exactly when `1/wavelength² - |xy|²` is strictly negative, i.e.
when `|xy| > 1/wavelength` — at `|xy| = 1/wavelength` the result is the
finite value `-1/wavelength`; and with `wavelength = 0.025 = 1/40` the
origin maps to `(0, 0, 0)`. -/
theorem C7_detector_amended :
    (∀ (k_xy : List Vec2) (w c : ℚ),
      (detector_to_fourier k_xy w c).map (fun r => (r.1, r.2.1)) = k_xy) ∧
    (∀ (v : Vec2) (w : ℚ),
      ((fourierRow v w).2.2 = none ↔ 1 / w ^ 2 - normSq v < 0)) ∧
    (∀ c : ℚ,
      detector_to_fourier [((0 : ℚ), (0 : ℚ))] (1/40) c =
        [((0 : ℚ), (0 : ℚ), some (0 : ℝ))]) := by
  refine ⟨?_, ?_, ?_⟩
  · intro k_xy w c
    simp only [detector_to_fourier, List.map_map]
    have hcomp : ((fun r : ℚ × ℚ × Option ℝ => (r.1, r.2.1)) ∘
        fun v => fourierRow v w) = fun v : Vec2 => v := by
      funext v
      rfl
    rw [hcomp, List.map_id']
  · intro v w
    by_cases hcond : 1 / w ^ 2 - normSq v < 0
    · simp [fourierRow, hcond]
    · simp [fourierRow, hcond]
  · intro c
    simp only [detector_to_fourier, fourierRow, List.map_cons, List.map_nil]
    norm_num [normSq]
    rw [show (1600 : ℝ) = (40 : ℝ) ^ 2 from by norm_num,
      Real.sqrt_sq (by norm_num : (0 : ℝ) ≤ 40)]
    norm_num

theorem normalizeRow_of_pos (v : Vec3) (h : norm3 v > 0) :
    normalizeRow v = fun i => v i / norm3 v := by
  unfold normalizeRow
  rw [if_pos h]

theorem normalizeRow_of_zero (v : Vec3) (h : ¬ norm3 v > 0) :
    normalizeRow v = v := by
  unfold normalizeRow
  rw [if_neg h]

theorem norm3_normalizeRow (v : Vec3) (h : norm3 v > 0) :
    norm3 (normalizeRow v) = 1 := by
  have hS : 0 < v 0 ^ 2 + v 1 ^ 2 + v 2 ^ 2 := Real.sqrt_pos.mp h
  have hsq : (norm3 v) ^ 2 = v 0 ^ 2 + v 1 ^ 2 + v 2 ^ 2 :=
    Real.sq_sqrt (le_of_lt hS)
  have hne : norm3 v ≠ 0 := ne_of_gt h
  rw [normalizeRow_of_pos v h]
  show Real.sqrt ((v 0 / norm3 v) ^ 2 + (v 1 / norm3 v) ^ 2 +
    (v 2 / norm3 v) ^ 2) = 1
  have hval : (v 0 / norm3 v) ^ 2 + (v 1 / norm3 v) ^ 2 +
      (v 2 / norm3 v) ^ 2 = 1 := by
    field_simp
    linarith [hsq]
  rw [hval, Real.sqrt_one]

theorem normalizeRow_idem (v : Vec3) :
    normalizeRow (normalizeRow v) = normalizeRow v := by
  by_cases h : norm3 v > 0
  · have h1 := norm3_normalizeRow v h
    rw [normalizeRow_of_pos (normalizeRow v) (by rw [h1]; norm_num), h1]
    funext i
    simp
  · rw [normalizeRow_of_zero v h, normalizeRow_of_zero v h]

/-- C9 (confirmed): `normalize_or_zero` is idempotent — applying it twice
produces exactly the state left by applying it once — and a row whose norm
is exactly zero is left unchanged by the operation. -/
theorem C9_normalize_idempotent :
    (∀ v : List Vec3,
      normalize_or_zero (normalize_or_zero v) = normalize_or_zero v) ∧
    (∀ x : Vec3, norm3 x = 0 → normalizeRow x = x) := by
  constructor
  · intro v
    unfold normalize_or_zero
    rw [List.map_map]
    apply List.map_congr_left
    intro x _
    exact normalizeRow_idem x
  · intro x hx
    apply normalizeRow_of_zero
    rw [hx]
    norm_num

/-- C9 witness: the zero row is left unchanged. -/
theorem C9_witness :
    normalizeRow ![(0 : ℝ), 0, 0] = ![(0 : ℝ), 0, 0] := by
  apply C9_normalize_idempotent.2
  show norm3 ![(0 : ℝ), 0, 0] = 0
  simp [norm3]

theorem angleRow_mem_zipWith (a b : List Vec3) (θ : ℝ)
    (h : θ ∈ List.zipWith angleRow a b) : ∃ x y, θ = angleRow x y := by
  induction a generalizing b with
  | nil => simp at h
  | cons x xs ih =>
    cases b with
    | nil => simp at h
    | cons y ys =>
      simp only [List.zipWith_cons_cons, List.mem_cons] at h
      rcases h with h | h
      · exact ⟨x, y, h⟩
      · exact ih ys h

theorem angleRow_bounds (x y : Vec3) :
    0 ≤ angleRow x y ∧ angleRow x y ≤ Real.pi := by
  unfold angleRow
  split
  · exact ⟨Real.arccos_nonneg _, Real.arccos_le_pi _⟩
  · exact ⟨le_refl 0, Real.pi_pos.le⟩

theorem angleRow_zero_of_norm_zero (x y : Vec3)
    (h : norm3 x = 0 ∨ norm3 y = 0) : angleRow x y = 0 := by
  have h0 : norm3 x * norm3 y = 0 := by
    rcases h with h | h
    · rw [h, zero_mul]
    · rw [h, mul_zero]
  unfold angleRow
  rw [if_neg (fun hne => hne h0)]

/-- C5 (confirmed): `get_angle_cartesian_vec` fails with the shape-mismatch
validation error exactly when the two row lists have different lengths;
on success every returned angle lies in `[0, π]`; and the per-row angle is
defined as `0` whenever either row has zero norm (the `denom_nonzero` mask),
with the normalized dot product clipped to `[-1, 1]` before the arccosine
(visible in `angleRow`). -/
theorem C5_angle_between_spec :
    (∀ a b : List Vec3,
      (∃ e, get_angle_cartesian_vec a b = Except.error e) ↔
        a.length ≠ b.length) ∧
    (∀ (a b : List Vec3) (l : List ℝ),
      get_angle_cartesian_vec a b = Except.ok l →
      ∀ θ ∈ l, 0 ≤ θ ∧ θ ≤ Real.pi) ∧
    (∀ x y : Vec3, norm3 x = 0 ∨ norm3 y = 0 → angleRow x y = 0) := by
  refine ⟨?_, ?_, angleRow_zero_of_norm_zero⟩
  · intro a b
    unfold get_angle_cartesian_vec
    by_cases h : a.length ≠ b.length
    · rw [if_pos h]
      exact ⟨fun _ => h, fun _ => ⟨_, rfl⟩⟩
    · rw [if_neg h]
      constructor
      · rintro ⟨e, he⟩
        exact Except.noConfusion he
      · intro hh
        exact absurd hh h
  · intro a b l hok
    unfold get_angle_cartesian_vec at hok
    split at hok
    · exact Except.noConfusion hok
    · cases hok
      intro θ hθ
      obtain ⟨x, y, hxy⟩ := angleRow_mem_zipWith a b θ hθ
      rw [hxy]
      exact angleRow_bounds x y

/-- C5 witness: on the one-row zero inputs the function succeeds, the
returned angle is `0`, and it satisfies the `[0, π]` bounds. -/
theorem C5_witness :
    get_angle_cartesian_vec [![(0 : ℝ), 0, 0]] [![(0 : ℝ), 0, 0]] =
      Except.ok [angleRow ![(0 : ℝ), 0, 0] ![(0 : ℝ), 0, 0]] ∧
    (0 ≤ angleRow ![(0 : ℝ), 0, 0] ![(0 : ℝ), 0, 0] ∧
      angleRow ![(0 : ℝ), 0, 0] ![(0 : ℝ), 0, 0] ≤ Real.pi) ∧
    angleRow ![(0 : ℝ), 0, 0] ![(0 : ℝ), 0, 0] = 0 := by
  have hok : get_angle_cartesian_vec [![(0 : ℝ), 0, 0]] [![(0 : ℝ), 0, 0]] =
      Except.ok [angleRow ![(0 : ℝ), 0, 0] ![(0 : ℝ), 0, 0]] := by
    unfold get_angle_cartesian_vec
    rw [if_neg (by simp)]
    rfl
  have hzero : norm3 ![(0 : ℝ), 0, 0] = 0 := by
    simp [norm3]
  exact ⟨hok,
    C5_angle_between_spec.2.1 _ _ _ hok _ (by simp),
    C5_angle_between_spec.2.2 _ _ (Or.inl hzero)⟩

theorem get_rotation_cons (f1 f2 t1 t2 : Vec3) (ts1 ts2 : List Vec3) :
    get_rotation_matrix_between_vectors f1 f2 (t1 :: ts1) (t2 :: ts2) =
      rotation_entry f1 f2 t1 t2 ::
        get_rotation_matrix_between_vectors f1 f2 ts1 ts2 := rfl

theorem get_rotation_eq_zipWith (f1 f2 : Vec3) (ts1 ts2 : List Vec3) :
    get_rotation_matrix_between_vectors f1 f2 ts1 ts2 =
      List.zipWith (rotation_entry f1 f2) ts1 ts2 := by
  induction ts1 generalizing ts2 with
  | nil => rfl
  | cons t1 ts1 ih =>
    cases ts2 with
    | nil => rfl
    | cons t2 ts2 =>
      rw [get_rotation_cons, ih]
      rfl

/-- C4 (confirmed): in the rotation solver, the batched result decomposes
entrywise, and per entry: a near-zero to-plane normal `to_v1[i] × to_v2[i]`
(sum of absolute components within the `np.isclose` tolerance of 0) is
replaced by `from_v1 × to_v1[i]`, and if that is still near-zero, by
`from_v2 × to_v2[i]`; where the (normalized) common rotation axis — the
cross product of the from-plane normal with the to-plane normal — is
near-zero, the plane-alignment rotation `R1` is the identity matrix; and
the returned total rotation per entry is `R = R2 · R1`. -/
theorem C4_rotation_solver_spec :
    (∀ (f1 f2 : Vec3) (ts1 ts2 : List Vec3),
      get_rotation_matrix_between_vectors f1 f2 ts1 ts2 =
        List.zipWith (rotation_entry f1 f2) ts1 ts2) ∧
    (∀ f1 f2 t1 t2 : Vec3,
      rotation_entry f1 f2 t1 t2 =
        R2_entry f1 f2 t1 t2 * R1_entry f1 f2 t1 t2) ∧
    (∀ f1 f2 t1 t2 : Vec3, isclose0 (sumAbs3 (cross3 t1 t2)) →
      (¬ isclose0 (sumAbs3 (cross3 f1 t1)) →
        plane_normal_to_entry f1 f2 t1 t2 = cross3 f1 t1) ∧
      (isclose0 (sumAbs3 (cross3 f1 t1)) →
        plane_normal_to_entry f1 f2 t1 t2 = cross3 f2 t2)) ∧
    (∀ f1 f2 t1 t2 : Vec3,
      isclose0 (sumAbs3 (normalizeRow
        (cross3 (cross3 f1 f2) (cross3 t1 t2)))) →
      R1_entry f1 f2 t1 t2 = 1) := by
  refine ⟨get_rotation_eq_zipWith, fun _ _ _ _ => rfl, ?_, ?_⟩
  · intro f1 f2 t1 t2 h0
    constructor
    · intro h1
      simp only [plane_normal_to_entry]
      rw [if_pos h0, if_neg h1]
    · intro h1
      simp only [plane_normal_to_entry]
      rw [if_pos h0, if_pos h1]
  · intro f1 f2 t1 t2 hax
    unfold R1_entry
    rw [if_neg (not_not.mpr hax)]

/-- C4 witness: the degenerate collinear pairs exercise both fallbacks and
the identity branch: for `to = (e3, 2·e3)` the first fallback
`from_v1 × to_v1` is taken; for `to = (2·e1, 4·e1)` (collinear with
`from_v1`) the second fallback `from_v2 × to_v2` is taken and the
plane-alignment rotation degenerates to the identity. -/
theorem C4_witness :
    plane_normal_to_entry ![(1:ℝ),0,0] ![(0:ℝ),1,0] ![(0:ℝ),0,3] ![(0:ℝ),0,6] =
      cross3 ![(1:ℝ),0,0] ![(0:ℝ),0,3] ∧
    plane_normal_to_entry ![(1:ℝ),0,0] ![(0:ℝ),1,0] ![(2:ℝ),0,0] ![(4:ℝ),0,0] =
      cross3 ![(0:ℝ),1,0] ![(4:ℝ),0,0] ∧
    R1_entry ![(1:ℝ),0,0] ![(0:ℝ),1,0] ![(2:ℝ),0,0] ![(4:ℝ),0,0] = 1 := by
  have hcA : cross3 ![(0:ℝ),0,3] ![(0:ℝ),0,6] = ![(0:ℝ),0,0] := by
    funext i
    fin_cases i <;> simp [cross3]
  have hcB : cross3 ![(1:ℝ),0,0] ![(0:ℝ),0,3] = ![(0:ℝ),-3,0] := by
    funext i
    fin_cases i <;> simp [cross3]
  have hcC : cross3 ![(2:ℝ),0,0] ![(4:ℝ),0,0] = ![(0:ℝ),0,0] := by
    funext i
    fin_cases i <;> simp [cross3]
  have hcD : cross3 ![(1:ℝ),0,0] ![(2:ℝ),0,0] = ![(0:ℝ),0,0] := by
    funext i
    fin_cases i <;> simp [cross3]
  have hzero : sumAbs3 ![(0:ℝ),0,0] = 0 := by
    simp [sumAbs3]
  have hiszero : isclose0 (0:ℝ) := by
    unfold isclose0
    norm_num
  have h0A : isclose0 (sumAbs3 (cross3 ![(0:ℝ),0,3] ![(0:ℝ),0,6])) := by
    rw [hcA, hzero]
    exact hiszero
  have h1A : ¬ isclose0 (sumAbs3 (cross3 ![(1:ℝ),0,0] ![(0:ℝ),0,3])) := by
    rw [hcB]
    norm_num [isclose0, sumAbs3]
  have h0C : isclose0 (sumAbs3 (cross3 ![(2:ℝ),0,0] ![(4:ℝ),0,0])) := by
    rw [hcC, hzero]
    exact hiszero
  have h1C : isclose0 (sumAbs3 (cross3 ![(1:ℝ),0,0] ![(2:ℝ),0,0])) := by
    rw [hcD, hzero]
    exact hiszero
  have haxC : isclose0 (sumAbs3 (normalizeRow
      (cross3 (cross3 ![(1:ℝ),0,0] ![(0:ℝ),1,0])
        (cross3 ![(2:ℝ),0,0] ![(4:ℝ),0,0])))) := by
    rw [hcC]
    have hcE : cross3 (cross3 ![(1:ℝ),0,0] ![(0:ℝ),1,0]) ![(0:ℝ),0,0] =
        ![(0:ℝ),0,0] := by
      funext i
      fin_cases i <;> simp [cross3]
    rw [hcE, normalizeRow_of_zero _ (by simp [norm3]), hzero]
    exact hiszero
  exact ⟨(C4_rotation_solver_spec.2.2.1 _ _ _ _ h0A).1 h1A,
    (C4_rotation_solver_spec.2.2.1 _ _ _ _ h0C).2 h1C,
    C4_rotation_solver_spec.2.2.2 _ _ _ _ haxC⟩
